import Mathlib

/-!
# Verification of the eth-cl-state-analyzer ingestion engine

Shallow embedding of the Go sources of `cortze/eth-cl-state-analyzer`
(fork-agnostic beacon-state model, reward model, download/reorg/finality
state machine, CLI entry point) together with proofs and refutations of
the specification claims about them.

Machine integers (`uint64` in Go) are modelled as `Nat`; subtraction that
can wrap around in Go is made explicit through `u64sub`.  Go slices are
modelled as `List`; an index that Go would read out of bounds (a runtime
panic) is modelled through `Option`/`getD` as indicated at each
definition.  Fallible Go functions returning `(T, error)` are modelled as
`Except String T`; a Go panic is modelled as `Option.none` around it.
-/

/-- Two's-complement style wrap-around subtraction on 64-bit unsigned
integers, as performed by Go's `uint64` subtraction.  For `a b < 2^64`
this is `a - b` when `b ≤ a` and wraps otherwise. -/
def u64sub (a b : Nat) : Nat := (2 ^ 64 + a - b) % 2 ^ 64

theorem u64sub_of_le {a b : Nat} (h : b ≤ a) (ha : a < 2 ^ 64) :
    u64sub a b = a - b := by
  unfold u64sub
  omega

namespace ChainSpec

/-! ## `pkg/spec/state.go`: the fork-agnostic state model -/

/-- Model of `phase0.Validator` (the fields used by this repository).
Public keys are opaque; we model them as `Nat` identifiers. -/
structure Validator where
  publicKey : Nat
  effectiveBalance : Nat
  slashed : Bool
  activationEpoch : Nat
  exitEpoch : Nat
deriving DecidableEq, Repr, Inhabited

/-- Model of `spec.AgnosticState` restricted to the fields the verified
functions read or write (`Balances`, `Validators`, `AttestingBalance`,
`MaxAttestingBalance`, `CorrectFlags`, `AttestingVals`,
`NumAttestingVals`, `Epoch`, `Slot`). -/
structure AgnosticState where
  balances : List Nat
  validators : List Validator
  attestingBalance : List Nat
  maxAttestingBalance : Nat
  correctFlags : List (List Nat)
  attestingVals : List Bool
  numAttestingVals : Nat
  epoch : Nat
  slot : Nat
deriving DecidableEq, Repr, Inhabited

/-- Model of `AgnosticState.Balance` (state.go:102-110).  The Go guard is
`uint64(len(p.Balances)) < uint64(valIdx)`; when it is not taken the code
performs the slice read `p.Balances[valIdx]`, which panics out of range.
The panic is modelled as `none`; a normal return is `some`. -/
def Balance (p : AgnosticState) (valIdx : Nat) : Option (Except String Nat) :=
  if p.balances.length < valIdx then
    some (Except.error "validator index wasn't activated")
  else
    (p.balances[valIdx]?).map Except.ok

/-- Model of `spec.ValidatorStatus` (QUEUE/ACTIVE/EXIT/SLASHED). -/
inductive ValidatorStatus where
  | queue
  | active
  | exit
  | slashed
deriving DecidableEq, Repr

/-- Model of `AgnosticState.GetValStatus` (state.go:213-229).  The Go
code reads `p.Validators[valIdx]` three times; the access is modelled
with `getD` (the theorems about this function carry an in-bounds
hypothesis stating which validator sits at `valIdx`). -/
def GetValStatus (p : AgnosticState) (valIdx : Nat) : ValidatorStatus :=
  if (p.validators.getD valIdx default).exitEpoch ≤ p.epoch then
    ValidatorStatus.exit
  else if (p.validators.getD valIdx default).slashed then
    ValidatorStatus.slashed
  else if (p.validators.getD valIdx default).activationEpoch ≤ p.epoch then
    ValidatorStatus.active
  else
    ValidatorStatus.queue

end ChainSpec

/-- State used to exercise `Balance`: a single balance entry. -/
def balanceProbeState : ChainSpec.AgnosticState :=
  { balances := [5]
    validators := []
    attestingBalance := []
    maxAttestingBalance := 0
    correctFlags := []
    attestingVals := []
    numAttestingVals := 0
    epoch := 0
    slot := 0 }

/-- C9: the bounds guard of `Balance` is off by one.  The claim states
that `Balance` returns an error exactly when `valIdx ≥ len(Balances)` and
that the guard rejects the boundary case `valIdx == len(Balances)` before
the list is indexed.  In the code the guard `len(Balances) < valIdx` is
false at `valIdx == len(Balances)`, so the slice read `Balances[valIdx]`
is reached out of range and panics (modelled as `none`): on the one-entry
state, index `1` panics, index `2` errors, index `0` returns the
balance. -/
theorem balance_guard_off_by_one_eval :
    ChainSpec.Balance balanceProbeState 1 = none ∧
    ChainSpec.Balance balanceProbeState 2 =
      some (Except.error "validator index wasn't activated") ∧
    ChainSpec.Balance balanceProbeState 0 = some (Except.ok 5) := by
  refine ⟨rfl, rfl, rfl⟩

/-- C10: `GetValStatus` applies the fixed priority EXIT > SLASHED >
ACTIVE > QUEUE: it returns EXIT whenever `ExitEpoch ≤ epoch`, even for a
slashed validator; SLASHED only when `ExitEpoch > epoch` and `Slashed`;
ACTIVE when additionally not slashed and `ActivationEpoch ≤ epoch`; and
QUEUE otherwise. -/
theorem getValStatus_priority (p : ChainSpec.AgnosticState) (valIdx : Nat)
    (v : ChainSpec.Validator) (hv : p.validators.getD valIdx default = v) :
    (v.exitEpoch ≤ p.epoch →
      ChainSpec.GetValStatus p valIdx = ChainSpec.ValidatorStatus.exit) ∧
    (p.epoch < v.exitEpoch → v.slashed = true →
      ChainSpec.GetValStatus p valIdx = ChainSpec.ValidatorStatus.slashed) ∧
    (p.epoch < v.exitEpoch → v.slashed = false → v.activationEpoch ≤ p.epoch →
      ChainSpec.GetValStatus p valIdx = ChainSpec.ValidatorStatus.active) ∧
    (p.epoch < v.exitEpoch → v.slashed = false → p.epoch < v.activationEpoch →
      ChainSpec.GetValStatus p valIdx = ChainSpec.ValidatorStatus.queue) := by
  unfold ChainSpec.GetValStatus
  rw [hv]
  refine ⟨fun h1 => ?_, fun h1 h2 => ?_, fun h1 h2 h3 => ?_, fun h1 h2 h3 => ?_⟩
  · rw [if_pos h1]
  · rw [if_neg (Nat.not_le.mpr h1), if_pos h2]
  · rw [if_neg (Nat.not_le.mpr h1), if_neg (by simp [h2]), if_pos h3]
  · rw [if_neg (Nat.not_le.mpr h1), if_neg (by simp [h2]),
      if_neg (Nat.not_le.mpr h3)]

/-- State used to exercise `GetValStatus`: one slashed validator whose
exit epoch has passed. -/
def statusProbeState : ChainSpec.AgnosticState :=
  { balanceProbeState with
    validators := [{ publicKey := 7, effectiveBalance := 32000000000,
                     slashed := true, activationEpoch := 0, exitEpoch := 3 }]
    epoch := 5 }

/-- Witness for C10: a slashed validator whose exit epoch has passed is
reported as EXIT (the first conjunct fires even though `slashed`). -/
theorem getValStatus_priority_witness :
    ChainSpec.GetValStatus statusProbeState 0 = ChainSpec.ValidatorStatus.exit :=
  (getValStatus_priority statusProbeState 0
    { publicKey := 7, effectiveBalance := 32000000000,
      slashed := true, activationEpoch := 0, exitEpoch := 3 } rfl).1 (by decide)

namespace Analyzer

/-! ## `cmd/reward_cmd.go`: the chain-analyzer download state machine -/

/-- `spec.SlotsPerEpoch` (32 slots per epoch). -/
def SlotsPerEpoch : Nat := 32

/-- Modelled from the spec: the constant `epochsToFinalizedTentative` is
declared outside the provided sources; the spec fixes its single
configuration default to 2 (used as rewind distance and catch-up
margin). -/
def epochsToFinalizedTentative : Nat := 2

/-- Model of the `next_slot` determination at the head of
`runDownloadBlocksFinalized` (reward_cmd.go:190-204): `nextSlotDownload`
is the last slot found in the database (0 when none); if it is 0 or lies
beyond the current finalized slot the download starts at the finalized
slot, otherwise it starts `epochsToFinalizedTentative` epochs before the
last persisted slot (a Go `uint64` subtraction). -/
def firstSlotToDownload (lastSlotDb finalizedSlot : Nat) : Nat :=
  if lastSlotDb = 0 ∨ finalizedSlot < lastSlotDb then finalizedSlot
  else u64sub lastSlotDb (epochsToFinalizedTentative * SlotsPerEpoch)

/-- Modelled from the spec: the first slot as the claim words it, the
maximum of (last persisted slot − 2 epochs) and the finalized slot. -/
def claimFirstSlotToDownload (lastSlotDb finalizedSlot : Nat) : Nat :=
  max (u64sub lastSlotDb (epochsToFinalizedTentative * SlotsPerEpoch)) finalizedSlot

end Analyzer

/-- C4 counterexample: with last persisted slot 100 and finalized slot
200 the code starts downloading at 100 − 64 = 36, not at the maximum
(which is the finalized slot 200); in particular a last persisted slot
exists and 100 − 64 < 200 yet downloading does not start at the finalized
slot. -/
theorem firstSlotToDownload_not_max :
    Analyzer.firstSlotToDownload 100 200 = 36 ∧
    Analyzer.claimFirstSlotToDownload 100 200 = 200 ∧ (36 : Nat) ≠ 200 := by
  refine ⟨?_, ?_, by decide⟩ <;>
    norm_num [Analyzer.firstSlotToDownload, Analyzer.claimFirstSlotToDownload,
      Analyzer.epochsToFinalizedTentative, Analyzer.SlotsPerEpoch, u64sub]

/-- C4 amended: the first slot to download is the finalized slot exactly
when no last persisted slot exists (0) or the last persisted slot lies
beyond the finalized slot; otherwise — even when two epochs before the
last persisted slot is below the finalized slot — it is the last
persisted slot minus 2 epochs (64 slots). -/
theorem firstSlotToDownload_cases (last fin : Nat) (hlast : last < 2 ^ 64) :
    (last = 0 ∨ fin < last → Analyzer.firstSlotToDownload last fin = fin) ∧
    (0 < last → last ≤ fin → 64 ≤ last →
      Analyzer.firstSlotToDownload last fin = last - 64) := by
  constructor
  · intro h
    rw [Analyzer.firstSlotToDownload, if_pos h]
  · intro h0 hle h64
    rw [Analyzer.firstSlotToDownload, if_neg (by omega)]
    show u64sub last 64 = last - 64
    exact u64sub_of_le h64 hlast

/-- Witness for C4's amended statement: with last persisted slot 100 and
finalized slot 200 the download starts at 36 = 100 − 64. -/
theorem firstSlotToDownload_cases_witness :
    Analyzer.firstSlotToDownload 100 200 = 100 - 64 :=
  (firstSlotToDownload_cases 100 200 (by norm_num)).2 (by decide) (by decide)
    (by decide)

namespace Cmd

/-! ## `cmd/reward_cmd.go`: the `rewards` CLI command -/

/-- The flag set of the `rewards` command; `none` models a flag the user
did not provide (urfave/cli `Context.IsSet` = false). -/
structure CliFlags where
  bnEndpoint : Option String
  outfolder : Option String
  initSlot : Option Int
  finalSlot : Option Int
  validatorIndexes : Option String
  logLevel : Option String
  dbUrl : Option String
  workersNum : Option Int
  dbWorkersNum : Option Int
deriving DecidableEq, Repr

/-- The analyzer construction parameters assembled by
`LaunchRewardsCalculator`. -/
structure RewardsConfig where
  bnEndpoint : String
  initSlot : Nat
  finalSlot : Nat
  dbUrl : String
  coworkers : Int
  dbWorkers : Int
deriving DecidableEq, Repr

/-- urfave/cli `Context.Int`: reading an unset `IntFlag` that declares no
`Value` yields the zero value 0. -/
def cliInt (o : Option Int) : Int := o.getD 0

/-- urfave/cli `Context.String` for an unset flag yields "". -/
def cliString (o : Option String) : String := o.getD ""

/-- Model of `LaunchRewardsCalculator` (reward_cmd.go:65-122) up to the
construction of the state analyzer.  `coworkers`/`dbWorkers` start at 1;
each missing required flag returns an error (with the message the code
uses); after the checks the code *unconditionally* overwrites
`coworkers = c.Int("workers-num")` and `dbWorkers =
c.Int("db-workers-num")`, shadowed here by the inner `let`s exactly as
the Go assignments do. -/
def LaunchRewardsCalculator (c : CliFlags) : Except String RewardsConfig :=
  let coworkers : Int := 1
  let dbWorkers : Int := 1
  if c.bnEndpoint.isNone then Except.error "bn endpoint not provided"
  else if c.outfolder.isNone then Except.error "outputfolder no provided"
  else if c.initSlot.isNone then Except.error "final slot not provided"
  else if c.finalSlot.isNone then Except.error "final slot not provided"
  else if c.validatorIndexes.isNone then Except.error "validator indexes not provided"
  else if c.dbUrl.isNone then Except.error "db-url not provided"
  else
    let coworkers := cliInt c.workersNum
    let dbWorkers := cliInt c.dbWorkersNum
    Except.ok
      { bnEndpoint := cliString c.bnEndpoint
        initSlot := (cliInt c.initSlot).toNat
        finalSlot := (cliInt c.finalSlot).toNat
        dbUrl := cliString c.dbUrl
        coworkers := coworkers
        dbWorkers := dbWorkers }

/-- A full command line with every required flag but with `workers-num`
and `db-workers-num` left unset. -/
def fullFlagsNoWorkers : CliFlags :=
  { bnEndpoint := some "http://localhost:5052"
    outfolder := some "out"
    initSlot := some 64
    finalSlot := some 128
    validatorIndexes := some "validators.json"
    logLevel := none
    dbUrl := some "postgresql://localhost:5432/db"
    workersNum := none
    dbWorkersNum := none }

end Cmd

/-- C8: when `--workers-num`/`--db-workers-num` are not provided the
command does NOT create the analyzer with 1 worker: the initial defaults
of 1 are unconditionally overwritten with `c.Int(...)`, which is 0 for an
unset flag, so the analyzer is created with 0 validator workers and 0 DB
workers, contradicting the code's own log line "flag not provided,
default: 1".  Each of the six required flags, when missing, still yields
an error as claimed. -/
theorem launchRewardsCalculator_worker_default_eval :
    (Cmd.LaunchRewardsCalculator Cmd.fullFlagsNoWorkers =
      Except.ok
        { bnEndpoint := "http://localhost:5052", initSlot := 64,
          finalSlot := 128, dbUrl := "postgresql://localhost:5432/db",
          coworkers := 0, dbWorkers := 0 }) ∧
    (Cmd.LaunchRewardsCalculator { Cmd.fullFlagsNoWorkers with bnEndpoint := none } =
      Except.error "bn endpoint not provided") ∧
    (Cmd.LaunchRewardsCalculator { Cmd.fullFlagsNoWorkers with outfolder := none } =
      Except.error "outputfolder no provided") ∧
    (Cmd.LaunchRewardsCalculator { Cmd.fullFlagsNoWorkers with initSlot := none } =
      Except.error "final slot not provided") ∧
    (Cmd.LaunchRewardsCalculator { Cmd.fullFlagsNoWorkers with finalSlot := none } =
      Except.error "final slot not provided") ∧
    (Cmd.LaunchRewardsCalculator { Cmd.fullFlagsNoWorkers with validatorIndexes := none } =
      Except.error "validator indexes not provided") ∧
    (Cmd.LaunchRewardsCalculator { Cmd.fullFlagsNoWorkers with dbUrl := none } =
      Except.error "db-url not provided") := by
  refine ⟨rfl, rfl, rfl, rfl, rfl, rfl, rfl⟩

namespace CustomSpec

/-! ## `pkg/custom_spec` (part_003): the Altair reward model -/

/-- `EFFECTIVE_BALANCE_INCREMENT` (1e9 Gwei). -/
def EFFECTIVE_BALANCE_INCREMENT : Nat := 1000000000

/-- `SYNC_REWARD_WEIGHT`. -/
def SYNC_REWARD_WEIGHT : Nat := 2

/-- `WEIGHT_DENOMINATOR`. -/
def WEIGHT_DENOMINATOR : Nat := 64

/-- `SYNC_COMMITTEE_SIZE`. -/
def SYNC_COMMITTEE_SIZE : Nat := 512

/-- `SLOTS_PER_EPOCH` (32). -/
def SLOTS_PER_EPOCH : Nat := 32

/-- Model of `altair.SyncCommittee`: the list of member public keys
(opaque `Nat` identifiers). -/
structure SyncCommittee where
  pubkeys : List Nat
deriving DecidableEq, Repr, Inhabited

/-- The fields of an Altair `VersionedBeaconState` that the reward model
reads. -/
structure BState where
  slot : Nat
  validators : List ChainSpec.Validator
  balances : List Nat
  currentSyncCommittee : SyncCommittee
deriving DecidableEq, Repr, Inhabited

/-- Model of `custom_spec.AltairSpec`: the wrapped previous and current
beacon states plus the per-flag attesting balances. -/
structure AltairSpec where
  prevBState : BState
  bState : BState
  attestingBalance : List Nat
deriving DecidableEq, Repr, Inhabited

/-- Model of `AltairSpec.GetMaxSyncComReward` (part_003:167-194).  The Go
float64 arithmetic is idealised as exact rationals; `GetBaseRewardPerInc`,
whose body is not among the provided sources, is passed in as the function
parameter `baseRewardPerInc`.  The membership test compares the validator
public key read from `PrevBState.Validators[valIdx]` against
`PrevBState.CurrentSyncCommittee` (both from the *previous* state);
`valEffectiveBalance` is unused, as in the Go code. -/
def GetMaxSyncComReward (baseRewardPerInc : Nat → ℚ) (p : AltairSpec)
    (valIdx : Nat) (valEffectiveBalance totalEffectiveBalance : Nat) : ℚ :=
  let valPubKey := (p.prevBState.validators.getD valIdx default).publicKey
  let inCommittee :=
    p.prevBState.currentSyncCommittee.pubkeys.any (fun item => valPubKey == item)
  if inCommittee = false then 0
  else
    let totalActiveInc : Nat := totalEffectiveBalance / EFFECTIVE_BALANCE_INCREMENT
    let totalBaseRewards : ℚ := baseRewardPerInc totalEffectiveBalance * totalActiveInc
    let maxParticipantRewards : ℚ :=
      totalBaseRewards * (SYNC_REWARD_WEIGHT : ℚ) / (WEIGHT_DENOMINATOR : ℚ) /
        (SLOTS_PER_EPOCH : ℚ)
    let participantReward : ℚ := maxParticipantRewards / (SYNC_COMMITTEE_SIZE : ℚ)
    participantReward * (SLOTS_PER_EPOCH : ℚ)

/-- Modelled from the spec: the claimed behaviour, with the membership
test against `Current.SyncCommittee` — the sync committee of the
*current* wrapped state `BState` — "as the spec states it", and the
claimed formula `participant_reward × SLOTS_PER_EPOCH`. -/
def claimMaxSyncComReward (baseRewardPerInc : Nat → ℚ) (p : AltairSpec)
    (valIdx : Nat) (totalEffectiveBalance : Nat) : ℚ :=
  let valPubKey := (p.bState.validators.getD valIdx default).publicKey
  if valPubKey ∈ p.bState.currentSyncCommittee.pubkeys then
    let participantReward : ℚ :=
      baseRewardPerInc totalEffectiveBalance *
        ((totalEffectiveBalance / EFFECTIVE_BALANCE_INCREMENT : Nat) : ℚ) *
        (SYNC_REWARD_WEIGHT : ℚ) / (WEIGHT_DENOMINATOR : ℚ) /
        (SLOTS_PER_EPOCH : ℚ) / (SYNC_COMMITTEE_SIZE : ℚ)
    participantReward * (SLOTS_PER_EPOCH : ℚ)
  else 0

/-- The amended behaviour: same formula, membership tested against the
*previous* state's sync committee with the public key read from the
previous state's validator list. -/
def amendedMaxSyncComReward (baseRewardPerInc : Nat → ℚ) (p : AltairSpec)
    (valIdx : Nat) (totalEffectiveBalance : Nat) : ℚ :=
  let valPubKey := (p.prevBState.validators.getD valIdx default).publicKey
  if valPubKey ∈ p.prevBState.currentSyncCommittee.pubkeys then
    let participantReward : ℚ :=
      baseRewardPerInc totalEffectiveBalance *
        ((totalEffectiveBalance / EFFECTIVE_BALANCE_INCREMENT : Nat) : ℚ) *
        (SYNC_REWARD_WEIGHT : ℚ) / (WEIGHT_DENOMINATOR : ℚ) /
        (SLOTS_PER_EPOCH : ℚ) / (SYNC_COMMITTEE_SIZE : ℚ)
    participantReward * (SLOTS_PER_EPOCH : ℚ)
  else 0

/-- An `AltairSpec` whose validator 0 is a member of the current state's
sync committee but not of the previous state's sync committee. -/
def committeeProbe : AltairSpec :=
  { prevBState :=
      { slot := 64
        validators := [{ publicKey := 1, effectiveBalance := 32000000000,
                         slashed := false, activationEpoch := 0,
                         exitEpoch := 100000 }]
        balances := [32000000000]
        currentSyncCommittee := { pubkeys := [2] } }
    bState :=
      { slot := 96
        validators := [{ publicKey := 1, effectiveBalance := 32000000000,
                         slashed := false, activationEpoch := 0,
                         exitEpoch := 100000 }]
        balances := [32000000000]
        currentSyncCommittee := { pubkeys := [1] } }
    attestingBalance := [0, 0, 0] }

end CustomSpec

/-- C2 counterexample: validator 0 is in the current state's sync
committee (so the claim's formula yields the nonzero reward 1/128 with
`base_reward_per_inc = 64` and total active effective balance 2e9) but
not in the previous state's committee — and `GetMaxSyncComReward`
returns 0, because the code tests membership against
`PrevBState.CurrentSyncCommittee`, not `Current.SyncCommittee`. -/
theorem maxSyncComReward_state_counterexample :
    CustomSpec.GetMaxSyncComReward (fun _ => 64) CustomSpec.committeeProbe 0
      32000000000 2000000000 = 0 ∧
    CustomSpec.claimMaxSyncComReward (fun _ => 64) CustomSpec.committeeProbe 0
      2000000000 = 1 / 128 ∧
    (0 : ℚ) ≠ 1 / 128 := by
  refine ⟨rfl, ?_, by norm_num⟩
  show (64 * ((2000000000 / CustomSpec.EFFECTIVE_BALANCE_INCREMENT : Nat) : ℚ) *
      (CustomSpec.SYNC_REWARD_WEIGHT : ℚ) / (CustomSpec.WEIGHT_DENOMINATOR : ℚ) /
      (CustomSpec.SLOTS_PER_EPOCH : ℚ) / (CustomSpec.SYNC_COMMITTEE_SIZE : ℚ)) *
      (CustomSpec.SLOTS_PER_EPOCH : ℚ) = 1 / 128
  norm_num [CustomSpec.EFFECTIVE_BALANCE_INCREMENT, CustomSpec.SYNC_REWARD_WEIGHT,
    CustomSpec.WEIGHT_DENOMINATOR, CustomSpec.SLOTS_PER_EPOCH,
    CustomSpec.SYNC_COMMITTEE_SIZE]

/-- C2 amended: for every validator index, `GetMaxSyncComReward` returns
0 when the validator's public key (read from the previous state) is not a
member of the *previous* state's sync committee, and otherwise returns
`participant_reward × SLOTS_PER_EPOCH` with `participant_reward =
(base_reward_per_inc × (total_active_effective_balance/INCREMENT) ×
SYNC_REWARD_WEIGHT / WEIGHT_DENOMINATOR / SLOTS_PER_EPOCH) /
SYNC_COMMITTEE_SIZE` — exactly the claim's formula, but with the
membership test against the previous state's committee. -/
theorem any_beq_eq_true_iff (l : List Nat) (k : Nat) :
    (l.any fun item => k == item) = true ↔ k ∈ l := by
  simp

theorem maxSyncComReward_eq_amended (baseRewardPerInc : Nat → ℚ)
    (p : CustomSpec.AltairSpec) (valIdx valEffectiveBalance teb : Nat) :
    CustomSpec.GetMaxSyncComReward baseRewardPerInc p valIdx
      valEffectiveBalance teb =
    CustomSpec.amendedMaxSyncComReward baseRewardPerInc p valIdx teb := by
  unfold CustomSpec.GetMaxSyncComReward CustomSpec.amendedMaxSyncComReward
  by_cases hmem :
      (p.prevBState.validators.getD valIdx default).publicKey ∈
        p.prevBState.currentSyncCommittee.pubkeys
  · have h1 : (p.prevBState.currentSyncCommittee.pubkeys.any fun item =>
        (p.prevBState.validators.getD valIdx default).publicKey == item) = true :=
      (any_beq_eq_true_iff _ _).mpr hmem
    rw [if_neg (by rw [h1]; simp), if_pos hmem]
  · have h1 : (p.prevBState.currentSyncCommittee.pubkeys.any fun item =>
        (p.prevBState.validators.getD valIdx default).publicKey == item) = false := by
      rw [Bool.eq_false_iff]
      intro h
      exact hmem ((any_beq_eq_true_iff _ _).mp h)
    rw [if_pos h1, if_neg hmem]

namespace Analyzer

/-- Fuel-indexed unfolding of the stepping loop
`for i := start; i <= stop; i += 32` (the fuel bounds the number of
iterations; `stop + 1 - start` always suffices since each step advances
by 32 ≥ 1). -/
def every32Aux : Nat → Nat → Nat → List Nat
  | 0, _, _ => []
  | fuel + 1, start, stop =>
      if start ≤ stop then start :: every32Aux fuel (start + 32) stop else []

/-- The loop `for i := start; i <= stop; i += 32`. -/
def every32 (start stop : Nat) : List Nat :=
  every32Aux (stop + 1 - start) start stop

/-- Model of the historical slot-range construction of `NewStateAnalyzer`
(pkg/analyzer): snap `initSlot` and `finalSlot` to the last slot of their
epochs, then collect every 32nd slot from two epochs before the snapped
init up to two epochs after the snapped final (`initSlot - 64` is a Go
`uint64` subtraction: for snapped slots below 64 it wraps and the loop
yields nothing). -/
def stateAnalyzerSlotRanges (initSlot finalSlot : Nat) : List Nat :=
  let initEpoch := initSlot / 32
  let finalEpoch := finalSlot / 32
  let snappedInit := (initEpoch + 1) * SlotsPerEpoch - 1
  let snappedFinal := (finalEpoch + 1) * SlotsPerEpoch - 1
  every32 (u64sub snappedInit (SlotsPerEpoch * 2)) (snappedFinal + SlotsPerEpoch * 2)

/-- Model of the historical slot-range construction of `NewBlockAnalyzer`
(part_002:70-80): despite the adjacent comment "start two epochs before
and end two epochs after", the loop `for i := initSlot; i <= finalSlot;
i += 1` enumerates exactly the user-supplied closed range, slot by
slot. -/
def blockAnalyzerSlotRanges (initSlot finalSlot : Nat) : List Nat :=
  List.range' initSlot (finalSlot + 1 - initSlot)

/-- Modelled from the spec: the claimed historical schedule — the
user-supplied range widened to whole epochs (snapped to the last slot of
each epoch) and extended by exactly two epochs before the first epoch and
two epochs after the last. -/
def claimHistoricalSlotRanges (initSlot finalSlot : Nat) : List Nat :=
  every32 ((initSlot / 32 + 1) * 32 - 1 - 64) ((finalSlot / 32 + 1) * 32 - 1 + 64)

end Analyzer

/-- C6: the claimed widening holds for the state analyzer but not for the
block analyzer.  `NewStateAnalyzer` builds exactly the widened epoch-end
schedule (first conjunct, away from the genesis wrap-around); for the
user-supplied range [100, 200] the claimed schedule is the epoch-end
slots 63, 95, …, 287, while `NewBlockAnalyzer` — whose own comment
promises the two-epoch extension — schedules the unwidened slots 100,
101, …, 200. -/
theorem historicalSlotRanges_block_analyzer_unwidened :
    (∀ initSlot finalSlot : Nat, 64 ≤ initSlot → initSlot < 2 ^ 63 →
      Analyzer.stateAnalyzerSlotRanges initSlot finalSlot =
        Analyzer.claimHistoricalSlotRanges initSlot finalSlot) ∧
    Analyzer.blockAnalyzerSlotRanges 100 200 = List.range' 100 101 ∧
    Analyzer.claimHistoricalSlotRanges 100 200 =
      [63, 95, 127, 159, 191, 223, 255, 287] ∧
    Analyzer.blockAnalyzerSlotRanges 100 200 ≠
      Analyzer.claimHistoricalSlotRanges 100 200 := by
  refine ⟨?_, rfl, by decide, by decide⟩
  intro initSlot finalSlot h64 hbig
  unfold Analyzer.stateAnalyzerSlotRanges Analyzer.claimHistoricalSlotRanges
  simp only [Analyzer.SlotsPerEpoch]
  rw [u64sub_of_le (by omega) (by omega)]

/-- Witness for C6's universally quantified conjunct: at the failing
input the state analyzer does produce the widened epoch-end schedule. -/
theorem historicalSlotRanges_witness :
    Analyzer.stateAnalyzerSlotRanges 100 200 =
      [63, 95, 127, 159, 191, 223, 255, 287] :=
  (historicalSlotRanges_block_analyzer_unwidened.1 100 200 (by decide)
      (by norm_num)).trans (by decide)

namespace Analyzer

/-- A request issued to the beacon node by the download loops. -/
inductive Request where
  | block (slot : Nat)
  | state (slot : Nat)
deriving DecidableEq, Repr

/-- Fuel-indexed unfolding of the body shared by `runDownloadBlocks`
(reward_cmd.go:145-169) and the finalized catch-up loop
(reward_cmd.go:207-219): one iteration per slot; the fuel is the exact
number of remaining iterations.  Each iteration requests the block at
`slot` and, when `slot % 32 == 0`, additionally the state at `slot - 1`
(a Go `uint64` subtraction). -/
def downloadRequestsAux : Nat → Nat → List Request
  | 0, _ => []
  | fuel + 1, slot =>
      Request.block slot ::
        ((if slot % 32 = 0 then [Request.state (u64sub slot 1)] else []) ++
          downloadRequestsAux fuel (slot + 1))

/-- The requests issued by a download loop running
`for slot := initSlot; slot < finalSlot; slot += 1`. -/
def downloadRequests (initSlot finalSlot : Nat) : List Request :=
  downloadRequestsAux (finalSlot - initSlot) initSlot

end Analyzer

theorem downloadRequestsAux_state_mem (t : Nat) :
    ∀ (n s : Nat), 0 < s → s + n ≤ 2 ^ 64 →
      (Analyzer.Request.state t ∈ Analyzer.downloadRequestsAux n s ↔
        (s ≤ t + 1 ∧ t + 1 < s + n ∧ (t + 1) % 32 = 0)) := by
  intro n
  induction n with
  | zero =>
      intro s _ _
      simp only [Analyzer.downloadRequestsAux, List.not_mem_nil, false_iff]
      omega
  | succ m ih =>
      intro s hs hbound
      have hsub : u64sub s 1 = s - 1 := u64sub_of_le hs (by omega)
      have hrec := ih (s + 1) (by omega) (by omega)
      simp only [Analyzer.downloadRequestsAux, List.mem_cons, List.mem_append,
        hrec]
      constructor
      · rintro (h | h | h)
        · exact absurd h (by simp)
        · by_cases hmod : s % 32 = 0
          · rw [if_pos hmod] at h
            simp only [List.mem_singleton, Analyzer.Request.state.injEq] at h
            subst h
            rw [hsub]
            omega
          · rw [if_neg hmod] at h
            simp at h
        · omega
      · intro h
        by_cases heq : t + 1 = s
        · refine Or.inr (Or.inl ?_)
          have hmod : s % 32 = 0 := by omega
          rw [if_pos hmod, hsub]
          simp only [List.mem_singleton, Analyzer.Request.state.injEq]
          omega
        · exact Or.inr (Or.inr (by omega))

/-- C7 counterexample: in the loop over `[32, 64)` every slot from 32 to
63 is iterated (witnessed by its block request), slot 63 is the last slot
of its epoch (63 % 32 = 31), yet no beacon-state download is issued for
slot 63 — the download for slot 63 would only happen at the iteration of
slot 64, which lies outside the range.  The claim's "a beacon-state
download is issued for slot s exactly when s % 32 == 31" therefore fails
for an iterated slot. -/
theorem downloadRequests_boundary_counterexample :
    (63 % 32 = 31) ∧
    Analyzer.Request.block 63 ∈ Analyzer.downloadRequests 32 64 ∧
    Analyzer.Request.state 63 ∉ Analyzer.downloadRequests 32 64 := by
  refine ⟨by decide, ?_, ?_⟩ <;> decide

/-- C7 amended: in each download loop over `[initSlot, finalSlot)` (away
from slot 0, where the Go `slot - 1` would wrap), the state of slot `t`
is requested precisely when the iteration of slot `t + 1` occurs inside
the range with `(t + 1) % 32 == 0`; equivalently, the state of a last
slot of an epoch is requested exactly when the *following* slot is
iterated, and no state is requested at any other slot. -/
theorem downloadRequests_state_pattern (initSlot finalSlot : Nat)
    (h0 : 0 < initSlot) (hinit : initSlot ≤ 2 ^ 64)
    (hfin : finalSlot ≤ 2 ^ 64) (t : Nat) :
    Analyzer.Request.state t ∈ Analyzer.downloadRequests initSlot finalSlot ↔
      (initSlot ≤ t + 1 ∧ t + 1 < finalSlot ∧ (t + 1) % 32 = 0) := by
  unfold Analyzer.downloadRequests
  rw [downloadRequestsAux_state_mem t (finalSlot - initSlot) initSlot h0
    (by omega)]
  omega

/-- Witness for C7's amended statement: in the loop over `[32, 96)` the
state of slot 63 is requested (at the iteration of slot 64). -/
theorem downloadRequests_state_pattern_witness :
    Analyzer.Request.state 63 ∈ Analyzer.downloadRequests 32 96 :=
  (downloadRequests_state_pattern 32 96 (by decide) (by norm_num)
    (by norm_num) 63).mpr (by decide)

namespace Analyzer

/-- Model of `spec.AgnosticBlock` restricted to the fields the
finality/reorg machine reads.  State roots are opaque `Nat`
identifiers. -/
structure AgnosticBlock where
  slot : Nat
  stateRoot : Nat
  proposed : Bool
deriving DecidableEq, Repr, Inhabited

/-- Modelled from the spec: the download cache `StateQueue`, whose
definition lies outside the provided sources.  The spec gives it a block
history keyed by slot (an association list here), the latest finalized
anchor and the head anchor. -/
structure StateQueue where
  blockHistory : List (Nat × AgnosticBlock)
  latestFinalized : AgnosticBlock
  headBlock : AgnosticBlock
deriving DecidableEq, Repr, Inhabited

/-- The map read `queue.BlockHistory[i]` (present test and value). -/
def StateQueue.lookup (q : StateQueue) (slot : Nat) : Option AgnosticBlock :=
  (q.blockHistory.find? (fun e => e.1 == slot)).map Prod.snd

/-- Modelled from the spec: `NewStateQueue(finalizedBlock)` rebuilds an
empty queue anchored at the given finalized block. -/
def NewStateQueue (finalizedBlock : AgnosticBlock) : StateQueue :=
  { blockHistory := [], latestFinalized := finalizedBlock,
    headBlock := finalizedBlock }

/-- Modelled from the spec: `AdvanceFinalized(i)` moves the finalized
anchor forward to the verified cached block at slot `i` (left in place
when that slot is not cached).  It does not touch the block history. -/
def StateQueue.advanceFinalized (q : StateQueue) (slot : Nat) : StateQueue :=
  { q with latestFinalized := (q.lookup slot).getD q.latestFinalized }

/-- Modelled from the spec: `Rewind(s)` erases all cached entries with
slot ≥ s; the head anchor becomes the highest remaining cached block
(the latest finalized anchor when nothing remains). -/
def StateQueue.rewind (q : StateQueue) (baseSlot : Nat) : StateQueue :=
  let remaining := q.blockHistory.filter (fun e => e.1 < baseSlot)
  { blockHistory := remaining
    latestFinalized := q.latestFinalized
    headBlock :=
      remaining.foldl (fun b e => if b.slot < e.2.slot then e.2 else b)
        q.latestFinalized }

/-- The facts the finality/reorg machine pushes to the database client:
per-table "drop from slot/epoch onward" markers and orphan rows. -/
inductive Persistable where
  | blockDrop (slot : Nat)
  | transactionDrop (slot : Nat)
  | withdrawalDrop (slot : Nat)
  | epochDrop (epoch : Nat)
  | proposerDutiesDrop (epoch : Nat)
  | validatorRewardsDrop (epoch : Nat)
  | orphanBlock (b : AgnosticBlock)
deriving DecidableEq, Repr

/-- Model of `RewindBlockMetrics` (reward_cmd.go:357-362): drop blocks,
transactions and withdrawals from `slot` (included) onwards. -/
def RewindBlockMetrics (slot : Nat) : List Persistable :=
  [Persistable.blockDrop slot, Persistable.transactionDrop slot,
   Persistable.withdrawalDrop slot]

/-- Model of `RewindEpochMetrics` (reward_cmd.go:364-369): drop epoch
rows and proposer duties from `epoch`, and validator rewards from
`epoch + 1` ("validator rewards are always written at epoch+1"); the
`+ 1` is a Go `uint64` addition. -/
def RewindEpochMetrics (epoch : Nat) : List Persistable :=
  [Persistable.epochDrop epoch, Persistable.proposerDutiesDrop epoch,
   Persistable.validatorRewardsDrop ((epoch + 1) % 2 ^ 64)]

/-- Modelled from the spec: the database effect of a validator-rewards
drop marker carrying epoch `e` — every reward row with recorded epoch
≥ e is deleted. -/
def applyValidatorRewardsDrop (rows : List Nat) (e : Nat) : List Nat :=
  rows.filter (fun r => r < e)

/-- Model of `ChainAnalyzer.Reorg` (reward_cmd.go:326-355): drop block
metrics from `baseSlot`; when the reorg ends at the last slot of an epoch
(`slot % 32 == 31`) or crosses an epoch boundary, drop epoch metrics
from `baseEpoch - 1` (a Go `uint64` subtraction); persist an orphan row
for every cached block with slot in `[baseSlot, slot)`; finally rewind
the queue to `baseSlot`.  Returns the persisted facts in order and the
rewound queue. -/
def Reorg (queue : StateQueue) (baseSlot slot : Nat) :
    List Persistable × StateQueue :=
  let blockDrops := RewindBlockMetrics baseSlot
  let baseEpoch := baseSlot / SlotsPerEpoch
  let reorgEpoch := slot / SlotsPerEpoch
  let epochDrops :=
    if slot % SlotsPerEpoch = 31 ∨ baseEpoch ≠ reorgEpoch then
      RewindEpochMetrics (u64sub baseEpoch 1)
    else []
  let orphans := (List.range' baseSlot (slot - baseSlot)).filterMap
      (fun i => (queue.lookup i).map Persistable.orphanBlock)
  (blockDrops ++ epochDrops ++ orphans, queue.rewind baseSlot)

/-- Model of the `ReorgChan` case of `runDownloadBlocksFinalized`
(reward_cmd.go:266-276): on a reorg event at `rslot` with depth `depth`,
`baseSlot = rslot - depth` (uint64); when `nextSlotDownload > baseSlot`
run `Reorg` and set the next download slot to the rewound queue's head
slot + 1; otherwise nothing changes.  Returns (persisted facts, queue,
next download slot). -/
def handleReorgEvent (queue : StateQueue) (nextSlotDownload rslot depth : Nat) :
    List Persistable × StateQueue × Nat :=
  let baseSlot := u64sub rslot depth
  if baseSlot < nextSlotDownload then
    let res := Reorg queue baseSlot rslot
    (res.1, res.2, res.2.headBlock.slot + 1)
  else ([], queue, nextSlotDownload)

end Analyzer

/-- Zeta-reduced equation for `Reorg` (with `SlotsPerEpoch` computed and
the append reassociated). -/
theorem Reorg_eq (queue : Analyzer.StateQueue) (baseSlot slot : Nat) :
    Analyzer.Reorg queue baseSlot slot =
      (Analyzer.RewindBlockMetrics baseSlot ++
        ((if slot % 32 = 31 ∨ baseSlot / 32 ≠ slot / 32 then
            Analyzer.RewindEpochMetrics (u64sub (baseSlot / 32) 1)
          else []) ++
          (List.range' baseSlot (slot - baseSlot)).filterMap
            (fun i => (queue.lookup i).map Analyzer.Persistable.orphanBlock)),
       queue.rewind baseSlot) := by
  simp only [Analyzer.Reorg, Analyzer.SlotsPerEpoch, List.append_assoc]

/-- Membership in the orphan rows emitted by `Reorg`. -/
theorem mem_reorg_orphans_iff (q : Analyzer.StateQueue) (baseSlot slot : Nat)
    (x : Analyzer.Persistable) :
    x ∈ (List.range' baseSlot (slot - baseSlot)).filterMap
        (fun i => (q.lookup i).map Analyzer.Persistable.orphanBlock) ↔
      ∃ i, baseSlot ≤ i ∧ i < baseSlot + (slot - baseSlot) ∧
        ∃ b, q.lookup i = some b ∧ x = Analyzer.Persistable.orphanBlock b := by
  simp only [List.mem_filterMap, Option.map_eq_some', List.mem_range'_1]
  constructor
  · rintro ⟨i, hi, b, hb, rfl⟩
    exact ⟨i, hi.1, hi.2, b, hb, rfl⟩
  · rintro ⟨i, h1, h2, b, hb, rfl⟩
    exact ⟨i, ⟨h1, h2⟩, b, hb, rfl⟩

/-- C5: on a reorg event at slot `rslot` with depth `depth` received when
`next_slot > base_slot = rslot - depth` (away from genesis wrap-around):
epoch metrics are rolled back exactly when `rslot % 32 == 31` or
`base_slot` and `rslot` fall in different epochs, and then from epoch
`base_slot/32 - 1`; an orphan row is persisted exactly for the blocks of
`[base_slot, rslot)` present in the cache; and the next download slot
becomes the rewound cache head slot + 1. -/
theorem handleReorgEvent_spec (queue : Analyzer.StateQueue)
    (nextSlotDownload rslot depth : Nat)
    (hd : depth ≤ rslot) (hr : rslot < 2 ^ 64)
    (hbase : 32 ≤ rslot - depth)
    (hguard : rslot - depth < nextSlotDownload) :
    ((rslot % 32 = 31 ∨ (rslot - depth) / 32 ≠ rslot / 32) →
      Analyzer.Persistable.epochDrop ((rslot - depth) / 32 - 1) ∈
        (Analyzer.handleReorgEvent queue nextSlotDownload rslot depth).1) ∧
    (¬(rslot % 32 = 31 ∨ (rslot - depth) / 32 ≠ rslot / 32) →
      ∀ e, Analyzer.Persistable.epochDrop e ∉
        (Analyzer.handleReorgEvent queue nextSlotDownload rslot depth).1) ∧
    (∀ b, Analyzer.Persistable.orphanBlock b ∈
        (Analyzer.handleReorgEvent queue nextSlotDownload rslot depth).1 ↔
      ∃ i, rslot - depth ≤ i ∧ i < rslot ∧ queue.lookup i = some b) ∧
    (Analyzer.handleReorgEvent queue nextSlotDownload rslot depth).2.2 =
      (queue.rewind (rslot - depth)).headBlock.slot + 1 := by
  have hb : u64sub rslot depth = rslot - depth := u64sub_of_le hd hr
  have hres : Analyzer.handleReorgEvent queue nextSlotDownload rslot depth =
      ((Analyzer.Reorg queue (rslot - depth) rslot).1,
       (Analyzer.Reorg queue (rslot - depth) rslot).2,
       (Analyzer.Reorg queue (rslot - depth) rslot).2.headBlock.slot + 1) := by
    unfold Analyzer.handleReorgEvent
    rw [hb, if_pos hguard]
  have he : u64sub ((rslot - depth) / 32) 1 = (rslot - depth) / 32 - 1 :=
    u64sub_of_le (by omega) (by omega)
  have hrange : rslot - depth + (rslot - (rslot - depth)) = rslot := by omega
  rw [hres, Reorg_eq, he]
  by_cases hc : rslot % 32 = 31 ∨ (rslot - depth) / 32 ≠ rslot / 32
  · rw [if_pos hc]
    refine ⟨fun _ => ?_, fun hn => absurd hc hn, fun b => ?_, rfl⟩
    · simp [Analyzer.RewindBlockMetrics, Analyzer.RewindEpochMetrics]
    · rw [List.mem_append, List.mem_append, mem_reorg_orphans_iff, hrange]
      constructor
      · rintro (h | h | ⟨i, h1, h2, a, ha, hx⟩)
        · simp [Analyzer.RewindBlockMetrics] at h
        · simp [Analyzer.RewindEpochMetrics] at h
        · injection hx with hba
          subst hba
          exact ⟨i, h1, h2, ha⟩
      · rintro ⟨i, h1, h2, h3⟩
        exact Or.inr (Or.inr ⟨i, h1, h2, b, h3, rfl⟩)
  · rw [if_neg hc]
    refine ⟨fun hcc => absurd hcc hc, fun _ e => ?_, fun b => ?_, rfl⟩
    · rw [List.mem_append, List.mem_append, mem_reorg_orphans_iff]
      rintro (h | h | ⟨i, _, _, a, _, hx⟩)
      · simp [Analyzer.RewindBlockMetrics] at h
      · simp at h
      · simp at hx
    · rw [List.mem_append, List.mem_append, mem_reorg_orphans_iff, hrange]
      constructor
      · rintro (h | h | ⟨i, h1, h2, a, ha, hx⟩)
        · simp [Analyzer.RewindBlockMetrics] at h
        · simp at h
        · injection hx with hba
          subst hba
          exact ⟨i, h1, h2, ha⟩
      · rintro ⟨i, h1, h2, h3⟩
        exact Or.inr (Or.inr ⟨i, h1, h2, b, h3, rfl⟩)

/-- Queue used to exercise the reorg handler: blocks cached at slots 95
and 96. -/
def reorgProbeQueue : Analyzer.StateQueue :=
  { blockHistory := [(95, { slot := 95, stateRoot := 11, proposed := true }),
                     (96, { slot := 96, stateRoot := 12, proposed := true })]
    latestFinalized := { slot := 64, stateRoot := 10, proposed := true }
    headBlock := { slot := 96, stateRoot := 12, proposed := true } }

/-- Witness for C5: the reorg at slot 97 with depth 2 (base slot 95)
crosses an epoch boundary, so epoch metrics are dropped from epoch
95/32 − 1 = 1. -/
theorem handleReorgEvent_spec_witness :
    Analyzer.Persistable.epochDrop 1 ∈
      (Analyzer.handleReorgEvent reorgProbeQueue 98 97 2).1 :=
  (handleReorgEvent_spec reorgProbeQueue 98 97 2 (by decide) (by norm_num)
    (by decide) (by decide)).1 (by decide)

namespace Analyzer

/-- The outcome of `CheckFinalized`: the drop markers persisted, the
resulting queue, the returned slot and the ok flag. -/
structure CheckFinalizedResult where
  persisted : List Persistable
  queue : StateQueue
  slot : Nat
  ok : Bool
deriving DecidableEq, Repr

/-- Fuel-indexed unfolding of the verification loop of `CheckFinalized`
(reward_cmd.go:371-414): for each slot `i` from the stored finalized slot
up to (excluding) the finalized block's slot, when slot `i` is cached
compare the canonical state root `chainRoot i` with the cached block's
root (absent slots are skipped); on a match advance the finalized anchor
and continue; on the first mismatch persist the block-metric drops at `i`
and the epoch-metric drops at `i/32 - 1` (a Go `uint64` subtraction),
rebuild the queue anchored at the finalized block, and return slot
`i - epochsToFinalizedTentative*32` with ok = false.  A clean loop
returns the finalized block's slot with ok = true. -/
def checkFinalizedAux (chainRoot : Nat → Nat) (finalizedBlock : AgnosticBlock) :
    Nat → Nat → StateQueue → CheckFinalizedResult
  | 0, _, q => ⟨[], q, finalizedBlock.slot, true⟩
  | fuel + 1, i, q =>
      match q.lookup i with
      | some b =>
          if chainRoot i = b.stateRoot then
            checkFinalizedAux chainRoot finalizedBlock fuel (i + 1)
              (q.advanceFinalized i)
          else
            ⟨RewindBlockMetrics i ++
               RewindEpochMetrics (u64sub (i / SlotsPerEpoch) 1),
             NewStateQueue finalizedBlock,
             u64sub i (epochsToFinalizedTentative * SlotsPerEpoch), false⟩
      | none => checkFinalizedAux chainRoot finalizedBlock fuel (i + 1) q

/-- Model of `CheckFinalized` (reward_cmd.go:371-414), taking the
canonical state-root oracle and the already-downloaded finalized block as
inputs: run the verification loop from `queue.LatestFinalized.Slot` up to
(excluding) the finalized block's slot. -/
def CheckFinalized (chainRoot : Nat → Nat) (queue : StateQueue)
    (finalizedBlock : AgnosticBlock) : CheckFinalizedResult :=
  checkFinalizedAux chainRoot finalizedBlock
    (finalizedBlock.slot - queue.latestFinalized.slot)
    queue.latestFinalized.slot queue

end Analyzer

/-- `AdvanceFinalized` leaves the block history untouched. -/
theorem advanceFinalized_lookup (q : Analyzer.StateQueue) (s j : Nat) :
    (q.advanceFinalized s).lookup j = q.lookup j := rfl

theorem checkFinalizedAux_first_mismatch (chainRoot : Nat → Nat)
    (fb : Analyzer.AgnosticBlock) (m : Nat) (bm : Analyzer.AgnosticBlock)
    (hroot : chainRoot m ≠ bm.stateRoot) :
    ∀ (fuel i : Nat) (q : Analyzer.StateQueue),
      i ≤ m → m < i + fuel →
      q.lookup m = some bm →
      (∀ j b, i ≤ j → j < m → q.lookup j = some b →
        chainRoot j = b.stateRoot) →
      Analyzer.checkFinalizedAux chainRoot fb fuel i q =
        ⟨Analyzer.RewindBlockMetrics m ++
           Analyzer.RewindEpochMetrics (u64sub (m / 32) 1),
         Analyzer.NewStateQueue fb, u64sub m 64, false⟩ := by
  intro fuel
  induction fuel with
  | zero =>
      intro i q h1 h2 _ _
      omega
  | succ n ih =>
      intro i q h1 h2 hmm hclean
      show (match q.lookup i with
        | some b =>
            if chainRoot i = b.stateRoot then
              Analyzer.checkFinalizedAux chainRoot fb n (i + 1)
                (q.advanceFinalized i)
            else
              ⟨Analyzer.RewindBlockMetrics i ++
                 Analyzer.RewindEpochMetrics (u64sub (i / Analyzer.SlotsPerEpoch) 1),
               Analyzer.NewStateQueue fb,
               u64sub i (Analyzer.epochsToFinalizedTentative * Analyzer.SlotsPerEpoch),
               false⟩
        | none => Analyzer.checkFinalizedAux chainRoot fb n (i + 1) q) = _
      cases hqi : q.lookup i with
      | none =>
          have hne : i ≠ m := fun h => by
            rw [h, hmm] at hqi
            exact Option.noConfusion hqi
          exact ih (i + 1) q (by omega) (by omega) hmm
            (fun j b hj1 hj2 => hclean j b (by omega) hj2)
      | some b =>
          dsimp only
          by_cases him : i = m
          · subst him
            have hbb : b = bm := Option.some.inj (hqi.symm.trans hmm)
            subst hbb
            rw [if_neg hroot]
            rfl
          · have hlt : i < m := by omega
            rw [if_pos (hclean i b (le_refl i) hlt hqi)]
            exact ih (i + 1) (q.advanceFinalized i) (by omega) (by omega)
              (by rw [advanceFinalized_lookup]; exact hmm)
              (fun j b' hj1 hj2 hl =>
                hclean j b' (by omega) hj2 (by rw [advanceFinalized_lookup] at hl; exact hl))

/-- C3 amended: when the first state-root mismatch of the verification
loop happens at slot `m` (every cached slot before `m` matches, `m` is
cached and mismatches), `CheckFinalized` persists the block-table drops
at slot `m` and the epoch/proposer-duties drops at epoch `m/32 − 1`, but
the validator-rewards drop marker carries epoch `m/32` (the
`RewindEpochMetrics` argument plus one, because rewards are stored at
epoch+1); it rebuilds the queue anchored at the finalized block and
returns the re-download slot `m − 2×32`.  Consequently, applying the
emitted validator-rewards drop leaves no reward row with recorded epoch
≥ `m/32` — rows at `m/32 − 1` are not touched. -/
theorem checkFinalized_mismatch_spec (chainRoot : Nat → Nat)
    (queue : Analyzer.StateQueue) (finalizedBlock : Analyzer.AgnosticBlock)
    (m : Nat) (bm : Analyzer.AgnosticBlock)
    (hm1 : queue.latestFinalized.slot ≤ m) (hm2 : m < finalizedBlock.slot)
    (hmm : queue.lookup m = some bm) (hroot : chainRoot m ≠ bm.stateRoot)
    (hclean : ∀ j b, queue.latestFinalized.slot ≤ j → j < m →
        queue.lookup j = some b → chainRoot j = b.stateRoot)
    (h64 : 64 ≤ m) (hm64 : m < 2 ^ 64) :
    Analyzer.CheckFinalized chainRoot queue finalizedBlock =
      ⟨[Analyzer.Persistable.blockDrop m, Analyzer.Persistable.transactionDrop m,
        Analyzer.Persistable.withdrawalDrop m,
        Analyzer.Persistable.epochDrop (m / 32 - 1),
        Analyzer.Persistable.proposerDutiesDrop (m / 32 - 1),
        Analyzer.Persistable.validatorRewardsDrop (m / 32)],
       Analyzer.NewStateQueue finalizedBlock, m - 64, false⟩ ∧
    (∀ rows : List Nat,
      ∀ r ∈ Analyzer.applyValidatorRewardsDrop rows (m / 32), r < m / 32) := by
  constructor
  · have hmain := checkFinalizedAux_first_mismatch chainRoot finalizedBlock m bm
      hroot (finalizedBlock.slot - queue.latestFinalized.slot)
      queue.latestFinalized.slot queue hm1 (by omega) hmm
      (fun j b hj1 hj2 => hclean j b hj1 hj2)
    rw [Analyzer.CheckFinalized, hmain]
    have e1 : u64sub (m / 32) 1 = m / 32 - 1 := u64sub_of_le (by omega) (by omega)
    have e2 : u64sub m 64 = m - 64 := u64sub_of_le h64 hm64
    have e3 : (m / 32 - 1 + 1) % 2 ^ 64 = m / 32 := by omega
    rw [e1, e2]
    simp only [Analyzer.RewindBlockMetrics, Analyzer.RewindEpochMetrics, e3,
      List.cons_append, List.nil_append]
  · intro rows r hr
    have := List.of_mem_filter hr
    simpa using this

/-- Queue used to exercise `CheckFinalized`: the stored finalized anchor
sits at slot 64 and only slot 96 is cached, with state root 5. -/
def finalityProbeQueue : Analyzer.StateQueue :=
  { blockHistory := [(96, { slot := 96, stateRoot := 5, proposed := true })]
    latestFinalized := { slot := 64, stateRoot := 1, proposed := true }
    headBlock := { slot := 96, stateRoot := 5, proposed := true } }

/-- The canonical state roots of the probe chain: slot 96 finalized with
root 6 (unlike the cached root 5), every other slot with root 1. -/
def finalityProbeRoot (i : Nat) : Nat := if i = 96 then 6 else 1

/-- The finalized block of the probe scenario, at slot 128. -/
def finalityProbeFinalized : Analyzer.AgnosticBlock :=
  { slot := 128, stateRoot := 9, proposed := true }

/-- Only slot 96 is cached in the probe queue. -/
theorem finalityProbeQueue_lookup (j : Nat) (b : Analyzer.AgnosticBlock)
    (h : finalityProbeQueue.lookup j = some b) : j = 96 := by
  by_contra hne
  have h96 : (96 == j) = false := by simpa using Ne.symm hne
  simp [finalityProbeQueue, Analyzer.StateQueue.lookup, List.find?, h96] at h

/-- Witness for C3's amended statement: on the probe scenario the first
mismatch is at slot 96 and `CheckFinalized` emits exactly the six drops
(validator rewards dropped from epoch 96/32 = 3), rebuilds the queue and
returns slot 96 − 64 = 32. -/
theorem checkFinalized_mismatch_spec_witness :
    Analyzer.CheckFinalized finalityProbeRoot finalityProbeQueue
        finalityProbeFinalized =
      ⟨[Analyzer.Persistable.blockDrop 96, Analyzer.Persistable.transactionDrop 96,
        Analyzer.Persistable.withdrawalDrop 96,
        Analyzer.Persistable.epochDrop 2,
        Analyzer.Persistable.proposerDutiesDrop 2,
        Analyzer.Persistable.validatorRewardsDrop 3],
       Analyzer.NewStateQueue finalityProbeFinalized, 32, false⟩ :=
  (checkFinalized_mismatch_spec finalityProbeRoot finalityProbeQueue
    finalityProbeFinalized 96
    { slot := 96, stateRoot := 5, proposed := true }
    (by decide) (by decide) (by decide) (by decide)
    (fun j b hj1 hj2 hl =>
      absurd (finalityProbeQueue_lookup j b hl) (by omega))
    (by decide) (by norm_num)).1

/-- C3 counterexample: the claim says the validator-rewards drop marker
carries epoch `m/32 − 1` and that afterwards no reward row with recorded
epoch ≥ `m/32 − 1` persists.  On the probe scenario the mismatch slot is
m = 96 and `m/32 − 1 = 2`: the emitted marker carries 3, no marker
carries 2, and applying the emitted drop to a table holding a row at
epoch 2 keeps that row — a row with epoch ≥ m/32 − 1 persists.  (The
returned re-download slot 32 = 96 − 64 does match the claim.) -/
theorem checkFinalized_marker_counterexample :
    Analyzer.Persistable.validatorRewardsDrop 3 ∈
      (Analyzer.CheckFinalized finalityProbeRoot finalityProbeQueue
        finalityProbeFinalized).persisted ∧
    Analyzer.Persistable.validatorRewardsDrop 2 ∉
      (Analyzer.CheckFinalized finalityProbeRoot finalityProbeQueue
        finalityProbeFinalized).persisted ∧
    Analyzer.applyValidatorRewardsDrop [2] 3 = [2] ∧
    (Analyzer.CheckFinalized finalityProbeRoot finalityProbeQueue
        finalityProbeFinalized).slot = 32 := by
  refine ⟨?_, ?_, rfl, ?_⟩ <;> decide

theorem getD_set_self {α : Type} (l : List α) (i : Nat) (a d : α)
    (h : i < l.length) : (l.set i a).getD i d = a := by
  rw [List.getD_eq_getElem?_getD, List.getElem?_set_self h]
  rfl

theorem getD_set_ne {α : Type} (l : List α) (i j : Nat) (a d : α)
    (h : i ≠ j) : (l.set i a).getD j d = l.getD j d := by
  rw [List.getD_eq_getElem?_getD, List.getElem?_set_ne h,
    ← List.getD_eq_getElem?_getD]

theorem getD_replicate_self {α : Type} (n i : Nat) (d : α) :
    (List.replicate n d).getD i d = d := by
  rw [List.getD_eq_getElem?_getD]
  rcases Nat.lt_or_ge i n with h | h
  · rw [List.getElem?_replicate_of_lt h]
    rfl
  · rw [List.getElem?_eq_none (by simpa using h)]
    rfl

theorem getD_replicate_of_lt {α : Type} (n i : Nat) (d d' : α)
    (h : i < n) : (List.replicate n d).getD i d' = d := by
  rw [List.getD_eq_getElem?_getD, List.getElem?_replicate_of_lt h]
  rfl

namespace ChainSpec

/-- The participation-flag test `(item & flag) == flag` of
`ProcessAltairAttestations`, where `flag = 2^f` (the Go code computes it
as `math.Pow(2, participatingFlag)`). -/
def hasFlag (item f : Nat) : Bool := item &&& 2 ^ f == 2 ^ f

/-- One iteration of the inner loop of `ProcessAltairAttestations`
(state.go:287-306) at validator index `valIndex` with participation byte
`item`: when bit `f` is set, increment `CorrectFlags[f][valIndex]`, add
the validator's effective balance to `AttestingBalance[f]`, on a first
attestation bump `NumAttestingVals` and overwrite
`MaxAttestingBalance`, and mark the validator attesting. -/
def processFlagItem (f valIndex item : Nat) (st : AgnosticState) :
    AgnosticState :=
  if hasFlag item f then
    let st1 := { st with
      correctFlags := st.correctFlags.set f
        ((st.correctFlags.getD f []).set valIndex
          ((st.correctFlags.getD f []).getD valIndex 0 + 1))
      attestingBalance := st.attestingBalance.set f
        (st.attestingBalance.getD f 0 +
          (st.validators.getD valIndex default).effectiveBalance) }
    let st2 :=
      if st1.attestingVals.getD valIndex false = false then
        { st1 with
          numAttestingVals := st1.numAttestingVals + 1
          maxAttestingBalance :=
            (st1.validators.getD valIndex default).effectiveBalance }
      else st1
    { st2 with attestingVals := st2.attestingVals.set valIndex true }
  else st

/-- The inner loop `for valIndex, item := range participation` of
`ProcessAltairAttestations`, processing the items from index `k` on. -/
def processFlagLoop (f : Nat) : Nat → List Nat → AgnosticState → AgnosticState
  | _, [], st => st
  | k, item :: rest, st =>
      processFlagLoop f (k + 1) rest (processFlagItem f k item st)

/-- Model of `ProcessAltairAttestations` (state.go:276-308): one pass of
the inner loop per participation flag — source (bit 0), target (bit 1),
head (bit 2), in this order, as `range flags` enumerates the indices of
the three `TimelyFlagIndex` constants. -/
def ProcessAltairAttestations (st : AgnosticState) (participation : List Nat) :
    AgnosticState :=
  [0, 1, 2].foldl (fun s f => processFlagLoop f 0 participation s) st

/-- The state the Altair-or-later constructors hand to
`ProcessAltairAttestations`: raw-field copy followed by `Setup`
(state.go:62-84), which allocates three zeroed attesting balances, three
zeroed `CorrectFlags` rows and an all-false `AttestingVals` list, each
sized by the validator count, with `NumAttestingVals` still at its Go
zero value. -/
def setupState (vals : List Validator) (balances : List Nat)
    (epoch slot : Nat) : AgnosticState :=
  { balances := balances
    validators := vals
    attestingBalance := List.replicate 3 0
    maxAttestingBalance := 0
    correctFlags := List.replicate 3 (List.replicate vals.length 0)
    attestingVals := List.replicate vals.length false
    numAttestingVals := 0
    epoch := epoch
    slot := slot }

/-- The effective balance charged to flag `f` by one pass of the inner
loop over `items` starting at validator index `k`. -/
def flagBalanceFrom (f : Nat) (vals : List Validator) :
    Nat → List Nat → Nat
  | _, [] => 0
  | k, item :: rest =>
      (if hasFlag item f then (vals.getD k default).effectiveBalance else 0) +
        flagBalanceFrom f vals (k + 1) rest

/-- The number of validators a pass for flag `f` over `items` (from index
`k`) newly marks as attesting, given the attesting marks `avs` at the
start of the pass. -/
def newCount (f : Nat) (avs : List Bool) : Nat → List Nat → Nat
  | _, [] => 0
  | k, item :: rest =>
      (if hasFlag item f = true ∧ avs.getD k false = false then 1 else 0) +
        newCount f avs (k + 1) rest

end ChainSpec

/-- `hasFlag` tests exactly the bit `f` of the participation byte. -/
theorem hasFlag_iff_testBit (item f : Nat) :
    ChainSpec.hasFlag item f = true ↔ item.testBit f := by
  unfold ChainSpec.hasFlag
  rw [beq_iff_eq, Nat.and_two_pow]
  have h2 : 0 < 2 ^ f := Nat.pos_pow_of_pos f (by omega)
  cases h : item.testBit f <;> simp <;> omega

/-- Bool-level form of `hasFlag_iff_testBit`. -/
theorem hasFlag_eq_testBit (item f : Nat) :
    ChainSpec.hasFlag item f = item.testBit f := by
  rw [Bool.eq_iff_iff]
  exact hasFlag_iff_testBit item f

/-- When bit `f` of `item` is clear, `processFlagItem` is the
identity. -/
theorem processFlagItem_no_flag (f k item : Nat) (st : ChainSpec.AgnosticState)
    (hflag : ChainSpec.hasFlag item f = false) :
    ChainSpec.processFlagItem f k item st = st := by
  unfold ChainSpec.processFlagItem
  rw [hflag]
  rfl

/-- When bit `f` of `item` is set, the explicit record produced by
`processFlagItem`. -/
theorem processFlagItem_flag (f k item : Nat) (st : ChainSpec.AgnosticState)
    (hflag : ChainSpec.hasFlag item f = true) :
    ChainSpec.processFlagItem f k item st =
      { st with
        correctFlags := st.correctFlags.set f
          ((st.correctFlags.getD f []).set k
            ((st.correctFlags.getD f []).getD k 0 + 1))
        attestingBalance := st.attestingBalance.set f
          (st.attestingBalance.getD f 0 +
            (st.validators.getD k default).effectiveBalance)
        attestingVals := st.attestingVals.set k true
        numAttestingVals :=
          if st.attestingVals.getD k false = false then
            st.numAttestingVals + 1
          else st.numAttestingVals
        maxAttestingBalance :=
          if st.attestingVals.getD k false = false then
            (st.validators.getD k default).effectiveBalance
          else st.maxAttestingBalance } := by
  unfold ChainSpec.processFlagItem
  rw [if_pos hflag]
  dsimp only
  by_cases hprev : st.attestingVals.getD k false = false
  · rw [if_pos hprev, if_pos hprev, if_pos hprev]
  · rw [if_neg hprev, if_neg hprev, if_neg hprev]

theorem processFlagLoop_cons (f k item : Nat) (rest : List Nat)
    (st : ChainSpec.AgnosticState) :
    ChainSpec.processFlagLoop f k (item :: rest) st =
      ChainSpec.processFlagLoop f (k + 1) rest
        (ChainSpec.processFlagItem f k item st) := rfl

theorem flagBalanceFrom_cons (f : Nat) (vals : List ChainSpec.Validator)
    (k item : Nat) (rest : List Nat) :
    ChainSpec.flagBalanceFrom f vals k (item :: rest) =
      (if ChainSpec.hasFlag item f then
        (vals.getD k default).effectiveBalance else 0) +
        ChainSpec.flagBalanceFrom f vals (k + 1) rest := rfl

theorem newCount_cons (f : Nat) (avs : List Bool) (k item : Nat)
    (rest : List Nat) :
    ChainSpec.newCount f avs k (item :: rest) =
      (if ChainSpec.hasFlag item f = true ∧ avs.getD k false = false then 1
        else 0) + ChainSpec.newCount f avs (k + 1) rest := rfl

/-- `newCount` only reads the attesting marks at indices ≥ k, so setting
an index below k does not change it. -/
theorem newCount_set_of_lt (f : Nat) :
    ∀ (rest : List Nat) (avs : List Bool) (j k : Nat) (a : Bool), j < k →
      ChainSpec.newCount f (avs.set j a) k rest =
        ChainSpec.newCount f avs k rest := by
  intro rest
  induction rest with
  | nil => intro avs j k a _; rfl
  | cons item tl ih =>
      intro avs j k a hjk
      rw [newCount_cons, newCount_cons, getD_set_ne avs j k a false (by omega),
        ih avs j (k + 1) a (by omega)]

/-- The index-shift equivalence between the condition at position `i` of
a pass started at `k` on `item :: rest` and the condition of the tail
pass started at `k + 1`, for `i ≠ k`. -/
theorem pass_cond_shift (P : Nat → Prop) (k i : Nat) (item : Nat)
    (rest : List Nat) (h : i ≠ k) :
    (k ≤ i ∧ i - k < rest.length + 1 ∧ P ((item :: rest).getD (i - k) 0)) ↔
      (k + 1 ≤ i ∧ i - (k + 1) < rest.length ∧
        P (rest.getD (i - (k + 1)) 0)) := by
  constructor
  · rintro ⟨h1, h2, h3⟩
    have hik : i - k = (i - (k + 1)) + 1 := by omega
    rw [hik, List.getD_cons_succ] at h3
    exact ⟨by omega, by omega, h3⟩
  · rintro ⟨h1, h2, h3⟩
    have hik : i - k = (i - (k + 1)) + 1 := by omega
    rw [hik, List.getD_cons_succ]
    exact ⟨by omega, by omega, h3⟩

/-- Complete characterisation of one pass of the inner loop of
`ProcessAltairAttestations` for flag `f` over the items from index `k`:
the validator list is unchanged; the rows of the other flags and the
other attesting balances are unchanged; the row of flag `f` gains exactly
1 at the positions whose byte has bit `f` set; the attesting balance of
flag `f` gains the effective balances of those positions; the attesting
marks become their old value OR the bit; and `NumAttestingVals` grows by
the number of positions whose bit is set and whose mark was still
false. -/
theorem processFlagLoop_spec (f : Nat) :
    ∀ (items : List Nat) (k : Nat) (st : ChainSpec.AgnosticState),
      f < 3 →
      st.correctFlags.length = 3 →
      st.attestingBalance.length = 3 →
      k + items.length ≤ st.attestingVals.length →
      k + items.length ≤ (st.correctFlags.getD f []).length →
      (ChainSpec.processFlagLoop f k items st).validators = st.validators ∧
      (ChainSpec.processFlagLoop f k items st).correctFlags.length = 3 ∧
      (∀ g, g ≠ f →
        (ChainSpec.processFlagLoop f k items st).correctFlags.getD g [] =
          st.correctFlags.getD g []) ∧
      ((ChainSpec.processFlagLoop f k items st).correctFlags.getD f []).length =
        (st.correctFlags.getD f []).length ∧
      (∀ i,
        ((ChainSpec.processFlagLoop f k items st).correctFlags.getD f []).getD i 0 =
          (st.correctFlags.getD f []).getD i 0 +
            (if k ≤ i ∧ i - k < items.length ∧
                ChainSpec.hasFlag (items.getD (i - k) 0) f = true then 1
              else 0)) ∧
      (ChainSpec.processFlagLoop f k items st).attestingBalance.length = 3 ∧
      (∀ g, g ≠ f →
        (ChainSpec.processFlagLoop f k items st).attestingBalance.getD g 0 =
          st.attestingBalance.getD g 0) ∧
      ((ChainSpec.processFlagLoop f k items st).attestingBalance.getD f 0 =
        st.attestingBalance.getD f 0 +
          ChainSpec.flagBalanceFrom f st.validators k items) ∧
      (ChainSpec.processFlagLoop f k items st).attestingVals.length =
        st.attestingVals.length ∧
      (∀ i,
        (ChainSpec.processFlagLoop f k items st).attestingVals.getD i false =
          (st.attestingVals.getD i false ||
            decide (k ≤ i ∧ i - k < items.length ∧
              ChainSpec.hasFlag (items.getD (i - k) 0) f = true))) ∧
      (ChainSpec.processFlagLoop f k items st).numAttestingVals =
        st.numAttestingVals + ChainSpec.newCount f st.attestingVals k items := by
  intro items
  induction items with
  | nil =>
      intro k st hf h3 hb3 hlen hrow
      refine ⟨rfl, h3, fun g _ => rfl, rfl, ?_, hb3, fun g _ => rfl, ?_, rfl,
        ?_, ?_⟩
      · intro i
        rw [if_neg (fun hcc => by
          have := hcc.2.1
          simp only [List.length_nil] at this
          omega)]
        rfl
      · rfl
      · intro i
        rw [decide_eq_false (fun hcc => by
          have := hcc.2.1
          simp only [List.length_nil] at this
          omega)]
        rw [Bool.or_false]
        rfl
      · rfl
  | cons item rest ih =>
      intro k st hf h3 hb3 hlen hrow
      have hlen' : (item :: rest).length = rest.length + 1 := rfl
      rw [hlen'] at hlen hrow
      by_cases hflag : ChainSpec.hasFlag item f = true
      · -- bit f of this byte is set
        have hstep := processFlagItem_flag f k item st hflag
        set st1 := ChainSpec.processFlagItem f k item st with hst1
        have e_v : st1.validators = st.validators := by rw [hstep]
        have e_cf : st1.correctFlags =
            st.correctFlags.set f
              ((st.correctFlags.getD f []).set k
                ((st.correctFlags.getD f []).getD k 0 + 1)) := by rw [hstep]
        have e_ab : st1.attestingBalance =
            st.attestingBalance.set f
              (st.attestingBalance.getD f 0 +
                (st.validators.getD k default).effectiveBalance) := by
          rw [hstep]
        have e_av : st1.attestingVals = st.attestingVals.set k true := by
          rw [hstep]
        have e_nv : st1.numAttestingVals =
            if st.attestingVals.getD k false = false then
              st.numAttestingVals + 1
            else st.numAttestingVals := by rw [hstep]
        have hrowf : st1.correctFlags.getD f [] =
            (st.correctFlags.getD f []).set k
              ((st.correctFlags.getD f []).getD k 0 + 1) := by
          rw [e_cf]
          exact getD_set_self _ _ _ _ (by omega)
        have hrowg : ∀ g, g ≠ f →
            st1.correctFlags.getD g [] = st.correctFlags.getD g [] := by
          intro g hg
          rw [e_cf]
          exact getD_set_ne _ _ _ _ _ (fun hh => hg hh.symm)
        have habf : st1.attestingBalance.getD f 0 =
            st.attestingBalance.getD f 0 +
              (st.validators.getD k default).effectiveBalance := by
          rw [e_ab]
          exact getD_set_self _ _ _ _ (by omega)
        have habg : ∀ g, g ≠ f →
            st1.attestingBalance.getD g 0 = st.attestingBalance.getD g 0 := by
          intro g hg
          rw [e_ab]
          exact getD_set_ne _ _ _ _ _ (fun hh => hg hh.symm)
        have b1 : st1.correctFlags.length = 3 := by
          rw [e_cf, List.length_set]
          exact h3
        have b2 : st1.attestingBalance.length = 3 := by
          rw [e_ab, List.length_set]
          exact hb3
        have b3 : k + 1 + rest.length ≤ st1.attestingVals.length := by
          rw [e_av, List.length_set]
          omega
        have b4 : k + 1 + rest.length ≤ (st1.correctFlags.getD f []).length := by
          rw [hrowf, List.length_set]
          omega
        obtain ⟨hV, hCL, hCg, hRL, hRi, hBL, hBg, hBf, hAL, hAi, hN⟩ :=
          ih (k + 1) st1 hf b1 b2 b3 b4
        rw [processFlagLoop_cons, ← hst1]
        simp only [List.length_cons]
        refine ⟨?_, hCL, ?_, ?_, ?_, hBL, ?_, ?_, ?_, ?_, ?_⟩
        · rw [hV, e_v]
        · intro g hg
          rw [hCg g hg, hrowg g hg]
        · rw [hRL, hrowf, List.length_set]
        · intro i
          rw [hRi i, hrowf]
          by_cases hik : i = k
          · subst hik
            rw [getD_set_self _ _ _ _ (by omega),
              if_neg (fun hcc => by omega),
              if_pos ⟨Nat.le_refl i, by omega, by
                rw [Nat.sub_self, List.getD_cons_zero]
                exact hflag⟩]
          · rw [getD_set_ne _ _ _ _ _ (fun hh => hik hh.symm)]
            by_cases hcond : k + 1 ≤ i ∧ i - (k + 1) < rest.length ∧
                ChainSpec.hasFlag (rest.getD (i - (k + 1)) 0) f = true
            · rw [if_pos hcond, if_pos
                ((pass_cond_shift
                  (fun x => ChainSpec.hasFlag x f = true) k i item rest
                  hik).mpr hcond)]
            · rw [if_neg hcond, if_neg (fun hcc => hcond
                ((pass_cond_shift
                  (fun x => ChainSpec.hasFlag x f = true) k i item rest
                  hik).mp hcc))]
        · intro g hg
          rw [hBg g hg, habg g hg]
        · rw [hBf, habf, e_v, flagBalanceFrom_cons, if_pos hflag]
          omega
        · rw [hAL, e_av, List.length_set]
        · intro i
          rw [hAi i, e_av]
          by_cases hik : i = k
          · subst hik
            rw [getD_set_self _ _ _ _ (by omega), Bool.true_or,
              decide_eq_true (by
                refine ⟨Nat.le_refl i, by omega, ?_⟩
                rw [Nat.sub_self, List.getD_cons_zero]
                exact hflag), Bool.or_true]
          · rw [getD_set_ne _ _ _ _ _ (fun hh => hik hh.symm)]
            by_cases hcond : k + 1 ≤ i ∧ i - (k + 1) < rest.length ∧
                ChainSpec.hasFlag (rest.getD (i - (k + 1)) 0) f = true
            · rw [decide_eq_true hcond, decide_eq_true
                ((pass_cond_shift
                  (fun x => ChainSpec.hasFlag x f = true) k i item rest
                  hik).mpr hcond)]
            · rw [decide_eq_false hcond, decide_eq_false
                (fun hcc => hcond
                  ((pass_cond_shift
                    (fun x => ChainSpec.hasFlag x f = true) k i item rest
                    hik).mp hcc))]
        · rw [hN, e_av, e_nv, newCount_set_of_lt f rest st.attestingVals k
            (k + 1) true (by omega), newCount_cons]
          by_cases hprev : st.attestingVals.getD k false = false
          · rw [if_pos hprev, if_pos ⟨hflag, hprev⟩]
            omega
          · rw [if_neg hprev, if_neg (fun hcc => hprev hcc.2)]
            omega
      · -- bit f of this byte is clear: the step is the identity
        have hflagf : ChainSpec.hasFlag item f = false :=
          Bool.eq_false_iff.mpr hflag
        have hstep := processFlagItem_no_flag f k item st hflagf
        obtain ⟨hV, hCL, hCg, hRL, hRi, hBL, hBg, hBf, hAL, hAi, hN⟩ :=
          ih (k + 1) st hf h3 hb3 (by omega) (by omega)
        rw [processFlagLoop_cons, hstep]
        simp only [List.length_cons]
        refine ⟨hV, hCL, hCg, hRL, ?_, hBL, hBg, ?_, hAL, ?_, ?_⟩
        · intro i
          rw [hRi i]
          by_cases hik : i = k
          · subst hik
            rw [if_neg (fun hcc => by omega),
              if_neg (fun hcc => by
                have := hcc.2.2
                rw [Nat.sub_self, List.getD_cons_zero] at this
                rw [this] at hflagf
                exact Bool.noConfusion hflagf)]
          · by_cases hcond : k + 1 ≤ i ∧ i - (k + 1) < rest.length ∧
                ChainSpec.hasFlag (rest.getD (i - (k + 1)) 0) f = true
            · rw [if_pos hcond, if_pos
                ((pass_cond_shift
                  (fun x => ChainSpec.hasFlag x f = true) k i item rest
                  hik).mpr hcond)]
            · rw [if_neg hcond, if_neg (fun hcc => hcond
                ((pass_cond_shift
                  (fun x => ChainSpec.hasFlag x f = true) k i item rest
                  hik).mp hcc))]
        · rw [hBf, flagBalanceFrom_cons, if_neg (by
            rw [hflagf]
            exact Bool.noConfusion)]
          omega
        · intro i
          rw [hAi i]
          by_cases hik : i = k
          · subst hik
            rw [decide_eq_false (fun hcc => by omega),
              decide_eq_false (fun hcc => by
                have := hcc.2.2
                rw [Nat.sub_self, List.getD_cons_zero] at this
                rw [this] at hflagf
                exact Bool.noConfusion hflagf)]
          · by_cases hcond : k + 1 ≤ i ∧ i - (k + 1) < rest.length ∧
                ChainSpec.hasFlag (rest.getD (i - (k + 1)) 0) f = true
            · rw [decide_eq_true hcond, decide_eq_true
                ((pass_cond_shift
                  (fun x => ChainSpec.hasFlag x f = true) k i item rest
                  hik).mpr hcond)]
            · rw [decide_eq_false hcond, decide_eq_false
                (fun hcc => hcond
                  ((pass_cond_shift
                    (fun x => ChainSpec.hasFlag x f = true) k i item rest
                    hik).mp hcc))]
        · rw [hN, newCount_cons, if_neg (fun hcc => by
            rw [hcc.1] at hflagf
            exact Bool.noConfusion hflagf)]
          omega

/-- A Bool-conditioned `if` on `hasFlag` equals the `if` on the bit. -/
theorem ite_hasFlag {α : Type} (item f : Nat) (x y : α) :
    (if ChainSpec.hasFlag item f then x else y) =
      if item.testBit f then x else y := by
  by_cases h : item.testBit f
  · rw [if_pos ((hasFlag_iff_testBit item f).mpr h), if_pos h]
  · rw [if_neg (fun hh => h ((hasFlag_iff_testBit item f).mp hh)), if_neg h]

/-- The flag balance of a pass is the sum of the effective balances at
the positions whose byte has the bit set. -/
theorem flagBalanceFrom_eq_sum (f : Nat) (vals : List ChainSpec.Validator) :
    ∀ (items : List Nat) (k : Nat),
      ChainSpec.flagBalanceFrom f vals k items =
        ∑ j ∈ Finset.range items.length,
          (if (items.getD j 0).testBit f then
            (vals.getD (k + j) default).effectiveBalance else 0) := by
  intro items
  induction items with
  | nil => intro k; simp [ChainSpec.flagBalanceFrom]
  | cons item rest ih =>
      intro k
      rw [flagBalanceFrom_cons, ih (k + 1), List.length_cons,
        Finset.sum_range_succ']
      rw [ite_hasFlag]
      simp only [List.getD_cons_zero, List.getD_cons_succ, Nat.add_zero]
      rw [Finset.sum_congr rfl (fun j _ => by
        rw [show k + 1 + j = k + (j + 1) by omega])]
      omega

/-- `newCount` as a sum of indicators over the item positions. -/
theorem newCount_eq_sum (f : Nat) :
    ∀ (items : List Nat) (avs : List Bool) (k : Nat),
      ChainSpec.newCount f avs k items =
        ∑ j ∈ Finset.range items.length,
          (if ChainSpec.hasFlag (items.getD j 0) f = true ∧
              avs.getD (k + j) false = false then 1 else 0) := by
  intro items
  induction items with
  | nil => intro avs k; simp [ChainSpec.newCount]
  | cons item rest ih =>
      intro avs k
      rw [newCount_cons, ih avs (k + 1), List.length_cons,
        Finset.sum_range_succ']
      simp only [List.getD_cons_zero, List.getD_cons_succ, Nat.add_zero]
      rw [Finset.sum_congr rfl (fun j _ => by
        rw [show k + 1 + j = k + (j + 1) by omega])]
      omega

/-- Full postcondition of `ProcessAltairAttestations` on a freshly
`Setup` state (zeroed flag rows and balances, all-false attesting marks,
zero counter): correct flags are exactly the participation bits, the
attesting balances are the per-flag effective-balance sums, the attesting
marks are the any-bit-set tests, and the counter is the number of
validators with at least one bit set. -/
theorem processAltairAttestations_post
    (vals : List ChainSpec.Validator) (participation : List Nat)
    (st0 : ChainSpec.AgnosticState)
    (hv : st0.validators = vals)
    (hcf : st0.correctFlags = List.replicate 3 (List.replicate vals.length 0))
    (hab : st0.attestingBalance = List.replicate 3 0)
    (hav : st0.attestingVals = List.replicate vals.length false)
    (hn : st0.numAttestingVals = 0)
    (hlen : participation.length = vals.length) :
    (∀ f, f < 3 → ∀ i, i < vals.length →
      ((((ChainSpec.ProcessAltairAttestations st0 participation).correctFlags.getD
          f []).getD i 0 ≠ 0) ↔ (participation.getD i 0).testBit f)) ∧
    (∀ f, f < 3 →
      (ChainSpec.ProcessAltairAttestations st0 participation).attestingBalance.getD
          f 0 =
        ∑ i ∈ Finset.range participation.length,
          (if (participation.getD i 0).testBit f then
            (vals.getD i default).effectiveBalance else 0)) ∧
    (∀ i, i < vals.length →
      ((ChainSpec.ProcessAltairAttestations st0 participation).attestingVals.getD
          i false = true ↔
        ((participation.getD i 0).testBit 0 ∨ (participation.getD i 0).testBit 1 ∨
          (participation.getD i 0).testBit 2))) ∧
    (ChainSpec.ProcessAltairAttestations st0 participation).numAttestingVals =
      ((Finset.range participation.length).filter (fun i =>
        (participation.getD i 0).testBit 0 ∨ (participation.getD i 0).testBit 1 ∨
          (participation.getD i 0).testBit 2)).card := by
  have hfold : ChainSpec.ProcessAltairAttestations st0 participation =
      ChainSpec.processFlagLoop 2 0 participation
        (ChainSpec.processFlagLoop 1 0 participation
          (ChainSpec.processFlagLoop 0 0 participation st0)) := rfl
  have h30 : st0.correctFlags.length = 3 := by rw [hcf]; simp
  have hb30 : st0.attestingBalance.length = 3 := by rw [hab]; simp
  have havL : st0.attestingVals.length = vals.length := by rw [hav]; simp
  have hrow0 : ∀ f, f < 3 →
      st0.correctFlags.getD f [] = List.replicate vals.length 0 := by
    intro f hf
    rw [hcf]
    exact getD_replicate_of_lt 3 f _ [] hf
  have hrow0v : ∀ f, f < 3 → ∀ i,
      (st0.correctFlags.getD f []).getD i 0 = 0 := by
    intro f hf i
    rw [hrow0 f hf]
    exact getD_replicate_self _ _ _
  have hav0 : ∀ i, st0.attestingVals.getD i false = false := by
    intro i
    rw [hav]
    exact getD_replicate_self _ _ _
  have hab0 : ∀ g, st0.attestingBalance.getD g 0 = 0 := by
    intro g
    rw [hab]
    exact getD_replicate_self _ _ _
  obtain ⟨V0, CL0, Cg0, RL0, Ri0, BL0, Bg0, Bf0, AL0, Ai0, N0⟩ :=
    processFlagLoop_spec 0 participation 0 st0 (by omega) h30 hb30
      (by rw [havL]; omega)
      (by rw [hrow0 0 (by omega)]; simp [hlen])
  obtain ⟨V1, CL1, Cg1, RL1, Ri1, BL1, Bg1, Bf1, AL1, Ai1, N1⟩ :=
    processFlagLoop_spec 1 participation 0
      (ChainSpec.processFlagLoop 0 0 participation st0) (by omega) CL0 BL0
      (by rw [AL0, havL]; omega)
      (by rw [Cg0 1 (by omega), hrow0 1 (by omega)]; simp [hlen])
  obtain ⟨V2, CL2, Cg2, RL2, Ri2, BL2, Bg2, Bf2, AL2, Ai2, N2⟩ :=
    processFlagLoop_spec 2 participation 0
      (ChainSpec.processFlagLoop 1 0 participation
        (ChainSpec.processFlagLoop 0 0 participation st0)) (by omega) CL1 BL1
      (by rw [AL1, AL0, havL]; omega)
      (by rw [Cg1 2 (by omega), Cg0 2 (by omega), hrow0 2 (by omega)]
          simp [hlen])
  have hrowv : ∀ f, f < 3 → ∀ i,
      (((ChainSpec.processFlagLoop 2 0 participation
        (ChainSpec.processFlagLoop 1 0 participation
          (ChainSpec.processFlagLoop 0 0 participation st0))).correctFlags.getD
            f []).getD i 0) =
        (if 0 ≤ i ∧ i - 0 < participation.length ∧
            ChainSpec.hasFlag (participation.getD (i - 0) 0) f = true then 1
          else 0) := by
    intro f hf i
    interval_cases f
    · rw [Cg2 0 (by omega), Cg1 0 (by omega), Ri0 i, hrow0v 0 (by omega) i,
        Nat.zero_add]
    · rw [Cg2 1 (by omega), Ri1 i, Cg0 1 (by omega), hrow0v 1 (by omega) i,
        Nat.zero_add]
    · rw [Ri2 i, Cg1 2 (by omega), Cg0 2 (by omega), hrow0v 2 (by omega) i,
        Nat.zero_add]
  have habv : ∀ f, f < 3 →
      (ChainSpec.processFlagLoop 2 0 participation
        (ChainSpec.processFlagLoop 1 0 participation
          (ChainSpec.processFlagLoop 0 0 participation st0))).attestingBalance.getD
          f 0 =
        ChainSpec.flagBalanceFrom f vals 0 participation := by
    intro f hf
    interval_cases f
    · rw [Bg2 0 (by omega), Bg1 0 (by omega), Bf0, hab0 0, hv, Nat.zero_add]
    · rw [Bg2 1 (by omega), Bf1, Bg0 1 (by omega), hab0 1, V0, hv,
        Nat.zero_add]
    · rw [Bf2, Bg1 2 (by omega), Bg0 2 (by omega), hab0 2, V1, V0, hv,
        Nat.zero_add]
  rw [hfold]
  refine ⟨?_, ?_, ?_, ?_⟩
  · intro f hf i hi
    rw [hrowv f hf i]
    simp only [Nat.sub_zero, Nat.zero_le, true_and]
    have hi' : i < participation.length := by omega
    by_cases htb : (participation.getD i 0).testBit f
    · rw [if_pos ⟨hi', (hasFlag_iff_testBit _ _).mpr htb⟩]
      exact iff_of_true one_ne_zero htb
    · rw [if_neg (fun hc => htb ((hasFlag_iff_testBit _ _).mp hc.2))]
      exact iff_of_false (fun h => h rfl) htb
  · intro f hf
    rw [habv f hf, flagBalanceFrom_eq_sum]
    exact Finset.sum_congr rfl (fun j _ => by rw [Nat.zero_add])
  · intro i hi
    rw [Ai2 i, Ai1 i, Ai0 i, hav0 i, Bool.false_or]
    simp only [Bool.or_eq_true, decide_eq_true_eq, Nat.sub_zero, Nat.zero_le,
      true_and]
    have hi' : i < participation.length := by omega
    constructor
    · rintro ((⟨_, h⟩ | ⟨_, h⟩) | ⟨_, h⟩)
      · exact Or.inl ((hasFlag_iff_testBit _ _).mp h)
      · exact Or.inr (Or.inl ((hasFlag_iff_testBit _ _).mp h))
      · exact Or.inr (Or.inr ((hasFlag_iff_testBit _ _).mp h))
    · rintro (h | h | h)
      · exact Or.inl (Or.inl ⟨hi', (hasFlag_iff_testBit _ _).mpr h⟩)
      · exact Or.inl (Or.inr ⟨hi', (hasFlag_iff_testBit _ _).mpr h⟩)
      · exact Or.inr ⟨hi', (hasFlag_iff_testBit _ _).mpr h⟩
  · rw [N2, N1, N0, hn, Nat.zero_add, newCount_eq_sum, newCount_eq_sum,
      newCount_eq_sum, Finset.card_filter, ← Finset.sum_add_distrib,
      ← Finset.sum_add_distrib]
    refine Finset.sum_congr rfl (fun j hj => ?_)
    have hj' : j < participation.length := Finset.mem_range.mp hj
    simp only [Nat.zero_add]
    rw [Ai1 j, Ai0 j, hav0 j, Bool.false_or]
    simp only [hasFlag_eq_testBit, Nat.sub_zero, Nat.zero_le, true_and]
    cases h0 : (participation.getD j 0).testBit 0 <;>
      cases h1 : (participation.getD j 0).testBit 1 <;>
        cases h2 : (participation.getD j 0).testBit 2 <;>
          simp [h0, h1, h2, hj']

/-- C1: for every Altair-or-later state construction (raw-field copy,
then `Setup`, then `ProcessAltairAttestations` over the previous-epoch
participation list): for each flag position f ∈ {source, target, head}
and validator i, `CorrectFlags[f][i]` is nonzero exactly when bit f of
validator i's participation byte is set; `AttestingBalance[f]` is the sum
of the effective balances of the validators whose bit f is set;
`AttestingVals[i]` holds exactly when validator i has at least one of the
three bits set; and `NumAttestingVals` is the number of validators with
at least one bit set (each counted once). -/
theorem processAltairAttestations_spec
    (vals : List ChainSpec.Validator) (balances : List Nat)
    (epoch slot : Nat) (participation : List Nat)
    (hlen : participation.length = vals.length) :
    (∀ f, f < 3 → ∀ i, i < vals.length →
      ((((ChainSpec.ProcessAltairAttestations
          (ChainSpec.setupState vals balances epoch slot)
          participation).correctFlags.getD f []).getD i 0 ≠ 0) ↔
        (participation.getD i 0).testBit f)) ∧
    (∀ f, f < 3 →
      (ChainSpec.ProcessAltairAttestations
          (ChainSpec.setupState vals balances epoch slot)
          participation).attestingBalance.getD f 0 =
        ∑ i ∈ Finset.range participation.length,
          (if (participation.getD i 0).testBit f then
            (vals.getD i default).effectiveBalance else 0)) ∧
    (∀ i, i < vals.length →
      ((ChainSpec.ProcessAltairAttestations
          (ChainSpec.setupState vals balances epoch slot)
          participation).attestingVals.getD i false = true ↔
        ((participation.getD i 0).testBit 0 ∨ (participation.getD i 0).testBit 1 ∨
          (participation.getD i 0).testBit 2))) ∧
    (ChainSpec.ProcessAltairAttestations
        (ChainSpec.setupState vals balances epoch slot)
        participation).numAttestingVals =
      ((Finset.range participation.length).filter (fun i =>
        (participation.getD i 0).testBit 0 ∨ (participation.getD i 0).testBit 1 ∨
          (participation.getD i 0).testBit 2)).card :=
  processAltairAttestations_post vals participation
    (ChainSpec.setupState vals balances epoch slot) rfl rfl rfl rfl rfl hlen

/-- Two validators with effective balances 5 and 7 for exercising the
participation processing. -/
def c1ProbeVals : List ChainSpec.Validator :=
  [{ publicKey := 1, effectiveBalance := 5, slashed := false,
     activationEpoch := 0, exitEpoch := 10 },
   { publicKey := 2, effectiveBalance := 7, slashed := false,
     activationEpoch := 0, exitEpoch := 10 }]

/-- Witness for C1: with participation bytes [3, 4] (validator 0 has
source and target set, validator 1 only head), the target attesting
balance is validator 0's 5 and both validators count as attesting. -/
theorem processAltairAttestations_spec_witness :
    (ChainSpec.ProcessAltairAttestations
      (ChainSpec.setupState c1ProbeVals [] 0 0) [3, 4]).attestingBalance.getD
        1 0 = 5 ∧
    (ChainSpec.ProcessAltairAttestations
      (ChainSpec.setupState c1ProbeVals [] 0 0) [3, 4]).numAttestingVals = 2 := by
  have h := processAltairAttestations_spec c1ProbeVals [] 0 0 [3, 4] (by decide)
  exact ⟨(h.2.1 1 (by decide)).trans (by decide), h.2.2.2.trans (by decide)⟩
